import Mathlib

/-!
Shallow embedding of the smart-testify test-generation engine
(cmd/smart-testify/generate.go and internal/util/finder.go) and proofs
about its naming, reference-collection, symbol-lookup and reconciliation
behaviour.
-/

deriving instance DecidableEq for Except

namespace SmartTestify

/-- Go AST type expressions, restricted to the node kinds inspected by
`parseTypeDefination` and the receiver matching in `finder.go`:
identifiers, `*T`, `[]T` / `[n]T`, `map[K]V`, selectors `pkg.Name`
(with an identifier left-hand side), selectors with a non-identifier
left-hand side, interface types, and a catch-all for every other kind. -/
inductive GoExpr : Type where
  | ident (name : String)
  | star (x : GoExpr)
  | array (elt : GoExpr)
  | map (key value : GoExpr)
  | selector (pkg sel : String)
  | selectorComplex
  | interfaceType
  | otherType
deriving DecidableEq, Repr

/-- `typePair` from generate.go: a package qualifier (empty for local
references) and a type name. -/
structure typePair where
  PackageName : String
  TypeName : String
deriving DecidableEq, Repr

/-- `functionPair` from generate.go. -/
structure functionPair where
  PackageName : String
  TypeName : String
  FuncName : String
deriving DecidableEq, Repr

/-- `parseTypeDefination` (generate.go): unwraps pointer and array
wrappers, concatenates key pairs before value pairs for map types,
turns `pkg.Name` selectors into a qualified pair, errors on selectors
with a non-identifier left-hand side, and yields no pairs for
interface types and unsupported node kinds. -/
def parseTypeDefination : GoExpr → Except String (List typePair)
  | .ident n => .ok [⟨"", n⟩]
  | .star x => parseTypeDefination x
  | .array e => parseTypeDefination e
  | .map k v => do
      let kp ← parseTypeDefination k
      let vp ← parseTypeDefination v
      .ok (kp ++ vp)
  | .selector p s => .ok [⟨p, s⟩]
  | .selectorComplex => .error "unsupported selector expression"
  | .interfaceType => .ok []
  | .otherType => .ok []

/-- A function declaration as seen by `generateTestFuncName`:
`recv = none` models a nil `Recv` field list, `some ts` models the
types of the receiver fields (`Recv.List[i].Type`). -/
structure FuncDecl where
  recv : Option (List GoExpr)
  name : String
deriving DecidableEq, Repr

/-- `generateTestFuncName` (generate.go): for a method with a non-empty
receiver list, the name is `"Test" ++ baseType ++ "_" ++ funcName` where
`baseType` is the first pair produced by `parseTypeDefination` on the
receiver type; otherwise `"Test" ++ funcName`. -/
def generateTestFuncName (method : FuncDecl) : Except String String :=
  match method.recv with
  | some (t :: _) => do
      let pair ← parseTypeDefination t
      match pair with
      | [] => .error "receiver type not found"
      | p :: _ => .ok ("Test" ++ p.TypeName ++ "_" ++ method.name)
  | _ => .ok ("Test" ++ method.name)

/-- Receiver types built from a named base type by pointer and
array/slice wrappers only (no map). -/
inductive PtrArrWrap (base : String) : GoExpr → Prop where
  | base : PtrArrWrap base (.ident base)
  | star {t : GoExpr} : PtrArrWrap base t → PtrArrWrap base (.star t)
  | array {t : GoExpr} : PtrArrWrap base t → PtrArrWrap base (.array t)

theorem parseTypeDefination_ptrArrWrap {b : String} {t : GoExpr}
    (h : PtrArrWrap b t) : parseTypeDefination t = .ok [⟨"", b⟩] := by
  induction h with
  | base => rfl
  | star _ ih => simpa [parseTypeDefination] using ih
  | array _ ih => simpa [parseTypeDefination] using ih

/-- Claim C1, counterexample: the claim asserts that a receiver-less
function named `Process` yields the test name `"Test_Process"`, but
`generateTestFuncName` produces `"TestProcess"` (the prefix is `"Test"`
with no underscore before the function name). -/
theorem C1_counterexample :
    generateTestFuncName ⟨none, "Process"⟩ = .ok "TestProcess" ∧
    generateTestFuncName ⟨none, "Process"⟩ ≠ .ok "Test_Process" := by
  decide

/-- Claim C1, amended: the canonical test name is
`"Test" ++ ReceiverBaseTypeName ++ "_" ++ FunctionName` when the function
has a receiver (with `ReceiverBaseTypeName` the first pair produced by
`parseTypeDefination` on the receiver type), and `"Test" ++ FunctionName`
when it has none; in particular `Process` with no receiver yields
`"TestProcess"`. -/
theorem C1_amended (m : FuncDecl) :
    (m.recv = none ∨ m.recv = some [] →
      generateTestFuncName m = .ok ("Test" ++ m.name)) ∧
    (∀ t rest p ps, m.recv = some (t :: rest) →
      parseTypeDefination t = .ok (p :: ps) →
      generateTestFuncName m = .ok ("Test" ++ p.TypeName ++ "_" ++ m.name)) := by
  constructor
  · rintro (h | h) <;> simp [generateTestFuncName, h]
  · intro t rest p ps hr hp
    simp [generateTestFuncName, hr, hp, Bind.bind, Except.bind]

/-- Claim C1, witness: instantiating the amended theorem at the
receiver-less function `Process` evaluates to `"TestProcess"`. -/
theorem C1_witness :
    generateTestFuncName ⟨none, "Process"⟩ = .ok "TestProcess" := by
  have h := (C1_amended ⟨none, "Process"⟩).1 (Or.inl rfl)
  simpa using h

/-- Claim C2, counterexample: for receiver `*[]map[string]Greeter` and
function `Greet`, `generateTestFuncName` yields `"Teststring_Greet"`
(the map KEY side contributes the first base pair), not the claimed
`"Test_Greeter_Greet"`. -/
theorem C2_counterexample :
    generateTestFuncName
      ⟨some [.star (.array (.map (.ident "string") (.ident "Greeter")))], "Greet"⟩
      = .ok "Teststring_Greet" ∧
    generateTestFuncName
      ⟨some [.star (.array (.map (.ident "string") (.ident "Greeter")))], "Greet"⟩
      ≠ .ok "Test_Greeter_Greet" := by
  decide

/-- Claim C2, amended: for a receiver wrapped only in pointer and
array/slice wrappers, the generated test function name depends only on
the innermost named type `b` and equals `"Test" ++ b ++ "_" ++ f`; when a
map wrapper is involved, the map key's base pairs come first, so
receiver `*[]map[string]Greeter` with function `Greet` yields
`"Teststring_Greet"`. -/
theorem C2_amended (b f : String) (t : GoExpr) (h : PtrArrWrap b t) :
    generateTestFuncName ⟨some [t], f⟩ = .ok ("Test" ++ b ++ "_" ++ f) ∧
    generateTestFuncName
      ⟨some [.star (.array (.map (.ident "string") (.ident "Greeter")))], "Greet"⟩
      = .ok "Teststring_Greet" := by
  refine ⟨?_, by decide⟩
  simp [generateTestFuncName, parseTypeDefination_ptrArrWrap h, Bind.bind, Except.bind]

/-- Claim C2, witness: instantiating the amended theorem at receiver
`*[]Greeter` and function `Greet` yields `"TestGreeter_Greet"`. -/
theorem C2_witness :
    generateTestFuncName ⟨some [.star (.array (.ident "Greeter"))], "Greet"⟩
      = .ok "TestGreeter_Greet" := by
  have h := (C2_amended "Greeter" "Greet" (.star (.array (.ident "Greeter")))
    (.star (.array .base))).1
  simpa using h

/-- Lexicographic comparison of character lists, the order Go's `<` puts
on strings (byte-lexicographic; UTF-8 byte order agrees with code-point
order, so a character-wise comparison is faithful). -/
def strLtList : List Char → List Char → Bool
  | _, [] => false
  | [], _ :: _ => true
  | a :: as, b :: bs =>
    if a.toNat < b.toNat then true
    else if b.toNat < a.toNat then false
    else strLtList as bs

/-- Go's `<` on strings. -/
def strLt (s t : String) : Bool := strLtList s.data t.data

theorem char_eq_of_toNat_eq {a b : Char} (h : a.toNat = b.toNat) : a = b := by
  cases a with
  | mk va ha =>
    cases b with
    | mk vb hb =>
      simp only [Char.toNat] at h
      have : va = vb := UInt32.toNat.inj h
      subst this
      rfl

theorem strLtList_trichot :
    ∀ x y : List Char, strLtList x y = true ∨ strLtList y x = true ∨ x = y := by
  intro x
  induction x with
  | nil => intro y; cases y <;> simp [strLtList]
  | cons a as ih =>
    intro y
    cases y with
    | nil => simp [strLtList]
    | cons b bs =>
      rcases Nat.lt_trichotomy a.toNat b.toNat with h | h | h
      · left; simp [strLtList, h]
      · have hab : a = b := char_eq_of_toNat_eq h
        subst hab
        rcases ih bs with h' | h' | h'
        · left; simp [strLtList, h']
        · right; left; simp [strLtList, h']
        · right; right; simp [h']
      · right; left; simp [strLtList, h]

theorem strLtList_asymm :
    ∀ x y : List Char, strLtList x y = true → strLtList y x = false := by
  intro x
  induction x with
  | nil => intro y hy; cases y <;> simp [strLtList] at *
  | cons a as ih =>
    intro y hy
    cases y with
    | nil => simp [strLtList] at hy
    | cons b bs =>
      by_cases h1 : a.toNat < b.toNat
      · simp [strLtList, h1, Nat.lt_asymm h1]
      · by_cases h2 : b.toNat < a.toNat
        · simp [strLtList, h1, h2] at hy
        · have : strLtList as bs = true := by simpa [strLtList, h1, h2] using hy
          simp [strLtList, h1, h2, ih bs this]

theorem strLtList_trans :
    ∀ x y z : List Char, strLtList x y = true → strLtList y z = true →
      strLtList x z = true := by
  intro x
  induction x with
  | nil =>
    intro y z hxy hyz
    cases y with
    | nil => simp [strLtList] at hxy
    | cons b bs =>
      cases z with
      | nil => simp [strLtList] at hyz
      | cons c cs => simp [strLtList]
  | cons a as ih =>
    intro y z hxy hyz
    cases y with
    | nil => simp [strLtList] at hxy
    | cons b bs =>
      cases z with
      | nil => simp [strLtList] at hyz
      | cons c cs =>
        by_cases hab : a.toNat < b.toNat
        · by_cases hbc : b.toNat < c.toNat
          · have : a.toNat < c.toNat := Nat.lt_trans hab hbc
            simp [strLtList, this]
          · by_cases hcb : c.toNat < b.toNat
            · simp [strLtList, hbc, hcb] at hyz
            · have hbceq : b = c :=
                char_eq_of_toNat_eq (Nat.le_antisymm (Nat.le_of_not_lt hcb) (Nat.le_of_not_lt hbc))
              subst hbceq
              simp [strLtList, hab]
        · by_cases hba : b.toNat < a.toNat
          · simp [strLtList, hab, hba] at hxy
          · have habeq : a = b :=
              char_eq_of_toNat_eq (Nat.le_antisymm (Nat.le_of_not_lt hba) (Nat.le_of_not_lt hab))
            subst habeq
            by_cases hac : a.toNat < c.toNat
            · simp [strLtList, hac]
            · by_cases hca : c.toNat < a.toNat
              · simp [strLtList, hac, hca] at hyz
              · have : strLtList as bs = true := by simpa [strLtList, hab, hba] using hxy
                have hz : strLtList bs cs = true := by simpa [strLtList, hac, hca] using hyz
                simp [strLtList, hac, hca, ih bs cs this hz]

theorem strLtList_false_trans {x y z : List Char}
    (h1 : strLtList y x = false) (h2 : strLtList z y = false) :
    strLtList z x = false := by
  by_contra h
  have hzx : strLtList z x = true := by simpa using h
  rcases strLtList_trichot x y with h' | h' | h'
  · have := strLtList_trans z x y hzx h'
    simp [this] at h2
  · simp [h'] at h1
  · subst h'
    simp [hzx] at h2

theorem strLtList_antisymm {x y : List Char}
    (h1 : strLtList x y = false) (h2 : strLtList y x = false) : x = y := by
  rcases strLtList_trichot x y with h | h | h
  · simp [h] at h1
  · simp [h] at h2
  · exact h

theorem strLt_asymm {s t : String} (h : strLt s t = true) : strLt t s = false :=
  strLtList_asymm _ _ h

theorem strLt_trans {s t u : String} (h1 : strLt s t = true) (h2 : strLt t u = true) :
    strLt s u = true :=
  strLtList_trans _ _ _ h1 h2

theorem strLt_false_trans {s t u : String}
    (h1 : strLt t s = false) (h2 : strLt u t = false) : strLt u s = false :=
  strLtList_false_trans h1 h2

theorem strLt_antisymm {s t : String}
    (h1 : strLt s t = false) (h2 : strLt t s = false) : s = t := by
  cases s with
  | mk sd =>
    cases t with
    | mk td =>
      have : sd = td := strLtList_antisymm h1 h2
      rw [this]

theorem strLt_irrefl (s : String) : strLt s s = false := by
  cases h : strLt s s
  · rfl
  · have := strLt_asymm h
    simp [h] at this

/-- Comparator of `sortByImportNameAndName` (generate.go): pairs with an
empty PackageName sort before pairs with a non-empty one; otherwise only
the TypeName is compared — the PackageName itself is never compared
lexicographically. -/
def typePairLess (a b : typePair) : Bool :=
  if a.PackageName = "" ∧ b.PackageName ≠ "" then true
  else if a.PackageName ≠ "" ∧ b.PackageName = "" then false
  else strLt a.TypeName b.TypeName

/-- Comparator of `sortFunctionPairs` (generate.go): lexicographic on
(PackageName, TypeName, FuncName). -/
def functionPairLess (a b : functionPair) : Bool :=
  if a.PackageName ≠ b.PackageName then strLt a.PackageName b.PackageName
  else if a.TypeName ≠ b.TypeName then strLt a.TypeName b.TypeName
  else strLt a.FuncName b.FuncName

theorem typePairLess_asymm {a b : typePair} (h : typePairLess a b = true) :
    typePairLess b a = false := by
  by_cases ha : a.PackageName = "" <;> by_cases hb : b.PackageName = ""
  · simp [typePairLess, ha, hb] at h ⊢
    exact strLt_asymm h
  · simp [typePairLess, ha, hb]
  · simp [typePairLess, ha, hb] at h
  · simp [typePairLess, ha, hb] at h ⊢
    exact strLt_asymm h

theorem typePairLess_false_trans {a b c : typePair}
    (h1 : typePairLess b a = false) (h2 : typePairLess c b = false) :
    typePairLess c a = false := by
  by_cases ha : a.PackageName = "" <;> by_cases hb : b.PackageName = "" <;>
    by_cases hc : c.PackageName = "" <;>
      simp [typePairLess, ha, hb, hc] at *
  · exact strLt_false_trans h1 h2
  · exact strLt_false_trans h1 h2

theorem typePairLess_tie {a b : typePair}
    (h1 : typePairLess a b = false) (h2 : typePairLess b a = false) :
    (a.PackageName = "" ↔ b.PackageName = "") ∧ a.TypeName = b.TypeName := by
  by_cases ha : a.PackageName = "" <;> by_cases hb : b.PackageName = "" <;>
    simp [typePairLess, ha, hb] at *
  · exact strLt_antisymm h1 h2
  · exact strLt_antisymm h1 h2

theorem functionPairLess_false_iff {a b : functionPair} :
    functionPairLess a b = false ↔
      (strLt a.PackageName b.PackageName = false ∧
        (a.PackageName = b.PackageName →
          strLt a.TypeName b.TypeName = false ∧
            (a.TypeName = b.TypeName → strLt a.FuncName b.FuncName = false))) := by
  unfold functionPairLess
  by_cases hp : a.PackageName = b.PackageName
  · by_cases ht : a.TypeName = b.TypeName
    · simp [hp, ht, strLt_irrefl]
    · simp [hp, ht, strLt_irrefl]
  · simp [hp]

theorem functionPairLess_asymm {a b : functionPair}
    (h : functionPairLess a b = true) : functionPairLess b a = false := by
  rw [functionPairLess_false_iff]
  unfold functionPairLess at h
  by_cases hp : a.PackageName = b.PackageName
  · by_cases ht : a.TypeName = b.TypeName
    · simp [hp, ht] at h
      simp [hp.symm, ht.symm, strLt_irrefl, strLt_asymm h]
    · simp [hp, ht] at h
      refine ⟨by simp [hp, strLt_irrefl], fun _ => ⟨strLt_asymm h, fun hTeq => ?_⟩⟩
      exact absurd hTeq.symm ht
  · simp [hp] at h
    exact ⟨strLt_asymm h, fun hPeq => absurd hPeq.symm hp⟩

theorem functionPairLess_false_trans {a b c : functionPair}
    (h1 : functionPairLess b a = false) (h2 : functionPairLess c b = false) :
    functionPairLess c a = false := by
  rw [functionPairLess_false_iff] at h1 h2 ⊢
  obtain ⟨hp1, hrest1⟩ := h1
  obtain ⟨hp2, hrest2⟩ := h2
  refine ⟨strLt_false_trans hp1 hp2, fun hpca => ?_⟩
  have hpcb : c.PackageName = b.PackageName := by
    have hbc : strLt b.PackageName c.PackageName = false := by
      rw [hpca]; exact hp1
    exact strLt_antisymm hp2 hbc
  have hpba : b.PackageName = a.PackageName := by rw [← hpca, hpcb]
  obtain ⟨ht1, hrest1'⟩ := hrest1 hpba
  obtain ⟨ht2, hrest2'⟩ := hrest2 hpcb
  refine ⟨strLt_false_trans ht1 ht2, fun htca => ?_⟩
  have htcb : c.TypeName = b.TypeName := by
    have hbc : strLt b.TypeName c.TypeName = false := by
      rw [htca]; exact ht1
    exact strLt_antisymm ht2 hbc
  have htba : b.TypeName = a.TypeName := by rw [← htca, htcb]
  exact strLt_false_trans (hrest1' htba) (hrest2' htcb)

theorem functionPairLess_antisymm {a b : functionPair}
    (h1 : functionPairLess a b = false) (h2 : functionPairLess b a = false) :
    a = b := by
  rw [functionPairLess_false_iff] at h1 h2
  have hp : a.PackageName = b.PackageName := strLt_antisymm h1.1 h2.1
  have ht : a.TypeName = b.TypeName :=
    strLt_antisymm (h1.2 hp).1 (h2.2 hp.symm).1
  have hf : a.FuncName = b.FuncName :=
    strLt_antisymm ((h1.2 hp).2 ht) ((h2.2 hp.symm).2 ht.symm)
  cases a; cases b
  simp_all

instance : IsTotal typePair (fun a b => typePairLess b a = false) := by
  constructor
  intro a b
  cases h : typePairLess b a
  · exact Or.inl rfl
  · exact Or.inr (typePairLess_asymm h)

instance : IsTrans typePair (fun a b => typePairLess b a = false) :=
  ⟨fun _ _ _ h1 h2 => typePairLess_false_trans h1 h2⟩

instance : IsTotal functionPair (fun a b => functionPairLess b a = false) := by
  constructor
  intro a b
  cases h : functionPairLess b a
  · exact Or.inl rfl
  · exact Or.inr (functionPairLess_asymm h)

instance : IsTrans functionPair (fun a b => functionPairLess b a = false) :=
  ⟨fun _ _ _ h1 h2 => functionPairLess_false_trans h1 h2⟩

/-- `sortByImportNameAndName` (generate.go) sorts in place with
`sort.Slice` and the comparator `typePairLess`. `sort.Slice` is an
unstable sort: its output is some permutation of the input that is
sorted with respect to the comparator. `insertionSort` computes one
such output; all of them coincide whenever the comparator has no ties
between distinct elements of the input. -/
def sortByImportNameAndName (pairs : List typePair) : List typePair :=
  List.insertionSort (fun a b => typePairLess b a = false) pairs

/-- `sortFunctionPairs` (generate.go), modelled like
`sortByImportNameAndName`. Its comparator is a strict total order on
the full (PackageName, TypeName, FuncName) triple, so here every
comparator-sorted permutation of a duplicate-free input coincides. -/
def sortFunctionPairs (l : List functionPair) : List functionPair :=
  List.insertionSort (fun a b => functionPairLess b a = false) l

/-- Go map key used by `uniqueTypePair`: PackageName ++ "." ++ TypeName. -/
def typePairKey (p : typePair) : String := p.PackageName ++ "." ++ p.TypeName

/-- Go map key used by `uniqueFunctionPair`. -/
def functionPairKey (p : functionPair) : String :=
  p.PackageName ++ "." ++ p.TypeName ++ "." ++ p.FuncName

/-- Insertion into an association list modelling a Go map: a later
insertion with an existing key overwrites the stored value in place. -/
def upsert {β : Type} : List (String × β) → String → β → List (String × β)
  | [], k, v => [(k, v)]
  | (k', v') :: rest, k, v =>
      if k' = k then (k, v) :: rest else (k', v') :: upsert rest k v

/-- The contents of the Go map built by `uniqueTypePair` /
`uniqueFunctionPair` after inserting every pair in list order. -/
def goMapInsertAll {β : Type} (key : β → String) (pairs : List β) :
    List (String × β) :=
  pairs.foldl (fun m p => upsert m (key p) p) []

/-- The multiset of values `uniqueTypePair` ranges over, in a canonical
(first-insertion-keyed) order. Go iterates map values in an unspecified
order, so `uniqueTypePair` itself is modelled by the relation
`uniqueTypePairRel` below. -/
def uniqueTypePairValues (pairs : List typePair) : List typePair :=
  (goMapInsertAll typePairKey pairs).map Prod.snd

/-- `uniqueTypePair pairs` may return `out` iff `out` enumerates the
deduplicating map's values in some order. -/
def uniqueTypePairRel (pairs out : List typePair) : Prop :=
  out.Perm (uniqueTypePairValues pairs)

/-- The values of the map built by `uniqueFunctionPair`, canonical order. -/
def uniqueFunctionPairValues (pairs : List functionPair) : List functionPair :=
  (goMapInsertAll functionPairKey pairs).map Prod.snd

/-- `uniqueFunctionPair pairs` may return `out` iff `out` enumerates the
deduplicating map's values in some order. -/
def uniqueFunctionPairRel (pairs out : List functionPair) : Prop :=
  out.Perm (uniqueFunctionPairValues pairs)

/-- The order claim C5 asserts for the sorted reference list, modelled
from the spec's words (NOT from the code): empty qualifiers first, then
lexicographic by qualifier, then by name. -/
def specC5Order (a b : typePair) : Prop :=
  (a.PackageName = "" ∧ b.PackageName ≠ "") ∨
  (a.PackageName = "" ∧ b.PackageName = "") ∨
  (a.PackageName ≠ "" ∧ b.PackageName ≠ "" ∧
    (strLt a.PackageName b.PackageName = true ∨
      (a.PackageName = b.PackageName ∧ strLt b.TypeName a.TypeName = false)))

/-- The order the code's comparator actually enforces: empty qualifiers
first; within the same emptiness class, non-decreasing TypeName, with
the qualifier ignored. -/
def codeC5Order (a b : typePair) : Prop :=
  (a.PackageName = "" ∧ b.PackageName ≠ "") ∨
  ((a.PackageName = "" ↔ b.PackageName = "") ∧ strLt b.TypeName a.TypeName = false)

instance (a b : typePair) : Decidable (specC5Order a b) := by
  unfold specC5Order; infer_instance

instance (a b : typePair) : Decidable (codeC5Order a b) := by
  unfold codeC5Order; infer_instance

instance (ps out : List typePair) : Decidable (uniqueTypePairRel ps out) := by
  unfold uniqueTypePairRel; infer_instance

instance (ps out : List functionPair) : Decidable (uniqueFunctionPairRel ps out) := by
  unfold uniqueFunctionPairRel; infer_instance

theorem typePairLess_false_iff {a b : typePair} :
    typePairLess b a = false ↔ codeC5Order a b := by
  unfold typePairLess codeC5Order
  by_cases ha : a.PackageName = "" <;> by_cases hb : b.PackageName = "" <;>
    simp [ha, hb]

/-- Two comparator-sorted permutations of each other are equal provided
the comparator is antisymmetric on the elements actually present. -/
theorem sorted_perm_eq {α : Type} {r : α → α → Prop} :
    ∀ {l₁ l₂ : List α}, l₁.Perm l₂ → List.Pairwise r l₁ → List.Pairwise r l₂ →
      (∀ a ∈ l₁, ∀ b ∈ l₁, r a b → r b a → a = b) → l₁ = l₂ := by
  intro l₁
  induction l₁ with
  | nil =>
    intro l₂ hp _ _ _
    exact List.Perm.nil_eq hp
  | cons a t ih =>
    intro l₂ hp hs₁ hs₂ hanti
    cases l₂ with
    | nil => exact absurd hp (by simp)
    | cons b t₂ =>
      have hab : a = b := by
        have hamem : a ∈ b :: t₂ := hp.mem_iff.mp (List.mem_cons_self a t)
        rcases List.mem_cons.mp hamem with h | h
        · exact h
        · have hba : r b a := List.rel_of_pairwise_cons hs₂ h
          have hbmem : b ∈ a :: t := hp.symm.mem_iff.mp (List.mem_cons_self b t₂)
          rcases List.mem_cons.mp hbmem with h' | h'
          · exact h'.symm
          · have hab' : r a b := List.rel_of_pairwise_cons hs₁ h'
            exact hanti a (List.mem_cons_self a t) b hbmem hab' hba
      subst hab
      have ht : t.Perm t₂ := hp.cons_inv
      have := ih ht (List.Pairwise.of_cons hs₁) (List.Pairwise.of_cons hs₂)
        (fun x hx y hy => hanti x (List.mem_cons_of_mem a hx) y (List.mem_cons_of_mem a hy))
      rw [this]

/-- Claim C5, counterexample: deduplicating and sorting the references
`{b.A, a.B}` yields `[b.A, a.B]` — the comparator orders non-empty
qualified references by TypeName only, so the result is NOT ordered
lexicographically by qualifier (`"a" < "b"` would require `a.B` first). -/
theorem C5_counterexample :
    sortByImportNameAndName (uniqueTypePairValues [⟨"b", "A"⟩, ⟨"a", "B"⟩])
      = [⟨"b", "A"⟩, ⟨"a", "B"⟩] ∧
    ¬ List.Pairwise specC5Order
        (sortByImportNameAndName (uniqueTypePairValues [⟨"b", "A"⟩, ⟨"a", "B"⟩])) := by
  decide

/-- Claim C5, amended: the deduplicated type-reference list handed to
resolution is a permutation of its input sorted so that references with
an empty package qualifier come first, and otherwise ordered by type
name alone — the qualifier is not compared beyond emptiness. -/
theorem C5_amended (pairs : List typePair) :
    (sortByImportNameAndName pairs).Perm pairs ∧
    List.Pairwise codeC5Order (sortByImportNameAndName pairs) := by
  refine ⟨List.perm_insertionSort _ _, ?_⟩
  have h := List.sorted_insertionSort (fun a b => typePairLess b a = false) pairs
  exact h.imp (fun hab => typePairLess_false_iff.mp hab)

/-- Claim C6, counterexample: the deduplicating Go map of `uniqueTypePair`
is iterated in an unspecified order, and the sort comparator ties the
references `a.Foo` and `b.Foo` (same TypeName, different non-empty
qualifiers), so two runs over the same collected references can hand
differently ordered lists to resolution. -/
theorem C6_counterexample :
    uniqueTypePairRel [⟨"a", "Foo"⟩, ⟨"b", "Foo"⟩] [⟨"a", "Foo"⟩, ⟨"b", "Foo"⟩] ∧
    uniqueTypePairRel [⟨"a", "Foo"⟩, ⟨"b", "Foo"⟩] [⟨"b", "Foo"⟩, ⟨"a", "Foo"⟩] ∧
    sortByImportNameAndName [⟨"a", "Foo"⟩, ⟨"b", "Foo"⟩] ≠
      sortByImportNameAndName [⟨"b", "Foo"⟩, ⟨"a", "Foo"⟩] := by
  decide

/-- Claim C6, amended: the collect–deduplicate–sort pipeline is
deterministic (any two map-iteration orders yield the same final sorted
list) for function references always, and for type references provided
no two distinct deduplicated references share the same emptiness class
and type name (the only comparator ties). -/
theorem C6_amended (ts : List typePair) (fs : List functionPair)
    (out₁ out₂ : List typePair) (fo₁ fo₂ : List functionPair)
    (h₁ : uniqueTypePairRel ts out₁) (h₂ : uniqueTypePairRel ts out₂)
    (hnt : ∀ a ∈ uniqueTypePairValues ts, ∀ b ∈ uniqueTypePairValues ts,
      (a.PackageName = "" ↔ b.PackageName = "") → a.TypeName = b.TypeName → a = b)
    (g₁ : uniqueFunctionPairRel fs fo₁) (g₂ : uniqueFunctionPairRel fs fo₂) :
    sortByImportNameAndName out₁ = sortByImportNameAndName out₂ ∧
    sortFunctionPairs fo₁ = sortFunctionPairs fo₂ := by
  constructor
  · apply sorted_perm_eq (r := fun a b => typePairLess b a = false)
    · exact ((List.perm_insertionSort _ out₁).trans (h₁.trans h₂.symm)).trans
        (List.perm_insertionSort _ out₂).symm
    · exact List.sorted_insertionSort _ _
    · exact List.sorted_insertionSort _ _
    · intro a ha b hb hab hba
      have hma : a ∈ uniqueTypePairValues ts :=
        h₁.mem_iff.mp ((List.perm_insertionSort _ out₁).mem_iff.mp ha)
      have hmb : b ∈ uniqueTypePairValues ts :=
        h₁.mem_iff.mp ((List.perm_insertionSort _ out₁).mem_iff.mp hb)
      have htie := typePairLess_tie hba hab
      exact hnt a hma b hmb htie.1 htie.2
  · apply sorted_perm_eq (r := fun a b => functionPairLess b a = false)
    · exact ((List.perm_insertionSort _ fo₁).trans (g₁.trans g₂.symm)).trans
        (List.perm_insertionSort _ fo₂).symm
    · exact List.sorted_insertionSort _ _
    · exact List.sorted_insertionSort _ _
    · intro a _ b _ hab hba
      exact functionPairLess_antisymm hba hab

/-- Claim C6, witness: for tie-free references `{A (local), p.B}` the two
possible map-iteration orders sort to the same list, and likewise for a
function reference list. -/
theorem C6_witness :
    sortByImportNameAndName [⟨"p", "B"⟩, ⟨"", "A"⟩] =
      sortByImportNameAndName [⟨"", "A"⟩, ⟨"p", "B"⟩] ∧
    sortFunctionPairs [⟨"p", "T", "F"⟩] = sortFunctionPairs [⟨"p", "T", "F"⟩] :=
  C6_amended [⟨"", "A"⟩, ⟨"p", "B"⟩] [⟨"p", "T", "F"⟩]
    [⟨"p", "B"⟩, ⟨"", "A"⟩] [⟨"", "A"⟩, ⟨"p", "B"⟩]
    [⟨"p", "T", "F"⟩] [⟨"p", "T", "F"⟩]
    (by decide) (by decide) (by decide) (by decide) (by decide)

/-- An import declaration: an optional explicit alias and the import
path (`Path.Value` with its surrounding quotes trimmed). -/
structure ImportSpec where
  name : Option String
  path : String
deriving DecidableEq, Repr

/-- Whether a path segment matches the version-suffix regex `v\d+`
(a `v` followed by one or more digits). -/
def isVersionSegment : List Char → Bool
  | 'v' :: d :: ds => (d :: ds).all Char.isDigit
  | _ => false

/-- Splitting a path on `/`, as `strings.Split(path, "/")` does (the
result is never empty). -/
def splitOnSlash : List Char → List (List Char)
  | [] => [[]]
  | c :: rest =>
    let r := splitOnSlash rest
    if c = '/' then [] :: r
    else
      match r with
      | [] => [[c]]
      | h :: t => (c :: h) :: t

/-- Removal of a trailing `/v<digits>` version suffix, as the
`findImportPath` regexp `re.ReplaceAllString(importPath, "")` does. -/
def stripVersionSuffix (path : List Char) : List Char :=
  let parts := splitOnSlash path
  if parts.length ≥ 2 ∧ isVersionSegment (parts.getLast?.getD []) then
    List.intercalate ['/'] parts.dropLast
  else path

/-- `findImportPath` (finder.go): first import whose explicit alias
equals the short name, or — for unaliased imports — whose
version-stripped path has the short name as its last `/` segment;
returns the original (unstripped) import path. -/
def findImportPath (pkgShortName : String) : List ImportSpec → Option String
  | [] => none
  | imp :: rest =>
    match imp.name with
    | some n =>
      if n = pkgShortName then some imp.path
      else findImportPath pkgShortName rest
    | none =>
      let path := stripVersionSuffix imp.path.data
      let parts := splitOnSlash path
      if parts.getLast?.getD [] = pkgShortName.data then some imp.path
      else findImportPath pkgShortName rest

/-- A function or method declaration as the finder sees it: its name,
the receiver field types (`none` models a nil receiver list) and the
printed source of the whole declaration. -/
structure FnDecl where
  name : String
  recv : Option (List GoExpr)
  src : String
deriving DecidableEq, Repr

/-- A parsed (or unparseable) Go source file as the finder sees it:
file name, whether parsing succeeds, imports, the TypeSpecs in
traversal order (name ↦ printed spec), and the top-level function
declarations in order. -/
structure SrcFile where
  fname : String
  parses : Bool
  imports : List ImportSpec
  typeDecls : List (String × String)
  fnDecls : List FnDecl
deriving DecidableEq, Repr

/-- Suffix test on strings (`strings.HasSuffix`), computed on the
character lists. -/
def hasSuffixStr (s suffix : String) : Bool :=
  suffix.data.isSuffixOf s.data

/-- `filepath.Ext(name) == ".go"`. -/
def isGoFile (name : String) : Bool := hasSuffixStr name ".go"

/-- `strings.HasSuffix(name, "_test.go")`. -/
def isTestGoFile (name : String) : Bool := hasSuffixStr name "_test.go"

/-- `findTypeInFile` (finder.go): the first TypeSpec with the given
name, re-serialized as `"type " ++ spec`; empty when absent. -/
def findTypeInFile (f : SrcFile) (typeName : String) : String :=
  match f.typeDecls.find? (fun td => td.1 = typeName) with
  | some td => "type " ++ td.2
  | none => ""

/-- Receiver-field matching of `findFunctionOrMethodInFile`: a pointer
receiver `*T` or a value receiver `T` with `T` an identifier equal to
the type name; nothing else matches. -/
def matchRecvField (t : GoExpr) (typeName : String) : Bool :=
  match t with
  | .star (.ident n) => n = typeName
  | .ident n => n = typeName
  | _ => false

/-- Whether a declaration is returned by `findFunctionOrMethodInFile`
for `(typeName, funcName)`: methods need a matching receiver field and
name; top-level functions match only when `typeName` is empty. -/
def fnDeclMatches (d : FnDecl) (typeName funcName : String) : Bool :=
  match d.recv with
  | some fields => fields.any (fun t => matchRecvField t typeName) && d.name = funcName
  | none => typeName = "" && d.name = funcName

/-- `findFunctionOrMethodInFile` (finder.go): first matching top-level
declaration's printed source; empty when absent (it never errors). -/
def findFunctionOrMethodInFile (f : SrcFile) (typeName funcName : String) : String :=
  match f.fnDecls.find? (fun d => fnDeclMatches d typeName funcName) with
  | some d => d.src
  | none => ""

/-- `findTypeInPackage` (finder.go): walks the package files in order,
skipping non-Go files and `_test.go` files, ABORTING with an error on
the first parse failure (the fixed message stands for the wrapped
parser error), and returning the first file's match. -/
def findTypeInPackage : List SrcFile → String → Except String String
  | [], _ => .ok ""
  | f :: rest, typeName =>
    if !isGoFile f.fname || isTestGoFile f.fname then
      findTypeInPackage rest typeName
    else if !f.parses then .error "failed to walk package: parse error"
    else
      let s := findTypeInFile f typeName
      if s = "" then findTypeInPackage rest typeName else .ok s

/-- `findFunctionOrMethodInPackage` (finder.go): globs `*.go` — which
INCLUDES `_test.go` files — SKIPS files that fail to parse
(`continue`), and returns the first match. -/
def findFunctionOrMethodInPackage :
    List SrcFile → String → String → Except String String
  | [], _, _ => .ok ""
  | f :: rest, typeName, funcName =>
    if !isGoFile f.fname then findFunctionOrMethodInPackage rest typeName funcName
    else if !f.parses then findFunctionOrMethodInPackage rest typeName funcName
    else
      let s := findFunctionOrMethodInFile f typeName funcName
      if s = "" then findFunctionOrMethodInPackage rest typeName funcName
      else .ok s

/-- The filesystem surroundings of a lookup: the target file, its
directory's files in walk order, and oracles for `build.Import`
(import path ↦ package directory), the GOROOT-prefix test of
`isStandardLibraryPackage`, and directory listings of resolved
packages. -/
structure Env where
  target : SrcFile
  dirFiles : List SrcFile
  resolveDir : String → Except String String
  stdlibDir : String → Bool
  pkgFiles : String → List SrcFile

/-- `FindTypeSource` (finder.go). With an empty qualifier: current file
first, then the package directory. With a non-empty qualifier: an
UNRESOLVED qualifier yields a SOFT empty result (`return "", nil`);
a resolved standard-library path yields an empty result; otherwise the
resolved package directory is searched. -/
def FindTypeSource (env : Env) (typePrefixImportName typeName : String) :
    Except String String :=
  if !env.target.parses then .error "failed to parse file"
  else if typePrefixImportName = "" then
    let s := findTypeInFile env.target typeName
    if s ≠ "" then .ok s
    else findTypeInPackage env.dirFiles typeName
  else
    match findImportPath typePrefixImportName env.target.imports with
    | none => .ok ""
    | some importFullName =>
      match env.resolveDir importFullName with
      | .error e => .error ("failed to resolve import path: " ++ e)
      | .ok dir =>
        if env.stdlibDir dir then .ok ""
        else findTypeInPackage (env.pkgFiles dir) typeName

/-- `FindFunctionSource` (finder.go). Same shape as `FindTypeSource`,
except that an UNRESOLVED non-empty qualifier is a HARD error
(`package %s not found`). -/
def FindFunctionSource (env : Env) (packageName typeName funcName : String) :
    Except String String :=
  if !env.target.parses then .error "failed to parse file"
  else if packageName = "" then
    let s := findFunctionOrMethodInFile env.target typeName funcName
    if s ≠ "" then .ok s
    else findFunctionOrMethodInPackage env.dirFiles typeName funcName
  else
    match findImportPath packageName env.target.imports with
    | none => .error ("package " ++ packageName ++ " not found")
    | some importFullName =>
      match env.resolveDir importFullName with
      | .error e => .error ("failed to resolve import path: " ++ e)
      | .ok dir =>
        if env.stdlibDir dir then .ok ""
        else findFunctionOrMethodInPackage (env.pkgFiles dir) typeName funcName

/-- A minimal parsed target file with no imports, exercising qualifier
resolution failure. -/
def bareTarget : SrcFile :=
  { fname := "main.go", parses := true, imports := [], typeDecls := [], fnDecls := [] }

/-- An environment around `bareTarget` with nothing resolvable. -/
def bareEnv : Env :=
  { target := bareTarget, dirFiles := [],
    resolveDir := fun _ => .error "no dir",
    stdlibDir := fun _ => false,
    pkgFiles := fun _ => [] }

/-- Claim C3, counterexample: with qualifier `foo` absent from the
imports, `FindTypeSource` returns the SOFT empty result and
`FindFunctionSource` the HARD "not found" error — exactly the opposite
of the claimed assignment. -/
theorem C3_counterexample :
    FindTypeSource bareEnv "foo" "Bar" = .ok "" ∧
    FindFunctionSource bareEnv "foo" "" "Baz" = .error "package foo not found" := by
  decide

/-- Claim C3, amended: when a non-empty package qualifier cannot be
resolved against the file's import list, a TYPE lookup returns a soft
empty result with no error, while a FUNCTION lookup fails with the hard
error "package <qualifier> not found". -/
theorem C3_amended (env : Env) (qual typeName tName fName : String)
    (hq : qual ≠ "") (hp : env.target.parses = true)
    (hi : findImportPath qual env.target.imports = none) :
    FindTypeSource env qual typeName = .ok "" ∧
    FindFunctionSource env qual tName fName =
      .error ("package " ++ qual ++ " not found") := by
  unfold FindTypeSource FindFunctionSource
  simp [hp, hq, hi]

/-- Claim C3, witness: the amended theorem instantiated at the bare
environment and qualifier `foo`. -/
theorem C3_witness :
    FindTypeSource bareEnv "foo" "Bar" = .ok "" ∧
    FindFunctionSource bareEnv "foo" "" "Baz" = .error "package foo not found" := by
  have h := C3_amended bareEnv "foo" "Bar" "" "Baz" (by decide) rfl (by decide)
  simpa using h

/-- A `_test.go` file declaring a type `Foo` and a function `Foo`. -/
def testOnlyFile : SrcFile :=
  { fname := "a_test.go", parses := true, imports := [],
    typeDecls := [("Foo", "Foo int")],
    fnDecls := [{ name := "Foo", recv := none, src := "func Foo()" }] }

/-- Claim C7, counterexample: the function search returns a match taken
FROM a `_test.go` file (its glob `*.go` does not exclude test files),
while the type search correctly skips the same file. -/
theorem C7_counterexample :
    findFunctionOrMethodInPackage [testOnlyFile] "" "Foo" = .ok "func Foo()" ∧
    findTypeInPackage [testOnlyFile] "Foo" = .ok "" := by
  decide

/-- Claim C7, amended: the TYPE search of a package directory skips
`_test.go` files and returns the first match among eligible files; the
FUNCTION search examines every parseable `.go` file INCLUDING
`_test.go` files and returns the first match. -/
theorem C7_amended (rest : List SrcFile) (f : SrcFile) (tn fn : String) :
    (isTestGoFile f.fname = true →
      findTypeInPackage (f :: rest) tn = findTypeInPackage rest tn) ∧
    (isGoFile f.fname = true → f.parses = true →
      findFunctionOrMethodInFile f tn fn ≠ "" →
      findFunctionOrMethodInPackage (f :: rest) tn fn =
        .ok (findFunctionOrMethodInFile f tn fn)) ∧
    (isGoFile f.fname = true → isTestGoFile f.fname = false → f.parses = true →
      findTypeInFile f tn ≠ "" →
      findTypeInPackage (f :: rest) tn = .ok (findTypeInFile f tn)) := by
  refine ⟨?_, ?_, ?_⟩
  · intro ht
    simp [findTypeInPackage, ht]
  · intro hg hp hne
    simp [findFunctionOrMethodInPackage, hg, hp, hne]
  · intro hg ht hp hne
    simp [findTypeInPackage, hg, ht, hp, hne]

/-- Claim C7, witness: instantiating the amended theorem at the
test-only file shows the function search matching inside it and the
type search skipping it. -/
theorem C7_witness :
    findFunctionOrMethodInPackage [testOnlyFile] "" "Foo" = .ok "func Foo()" ∧
    findTypeInPackage [testOnlyFile] "Foo" = findTypeInPackage [] "Foo" := by
  have h := C7_amended [] testOnlyFile "" "Foo"
  have h2 := C7_amended [] testOnlyFile "Foo" "Foo"
  exact ⟨by simpa using h.2.1 (by decide) (by decide) (by decide),
    h2.1 (by decide)⟩

/-- A `.go` file whose parsing fails. -/
def unparseableFile : SrcFile :=
  { fname := "bad.go", parses := false, imports := [], typeDecls := [], fnDecls := [] }

/-- A healthy `.go` file declaring type and function `Bar`. -/
def fnHolderFile : SrcFile :=
  { fname := "ok.go", parses := true, imports := [],
    typeDecls := [("Bar", "Bar int")],
    fnDecls := [{ name := "Bar", recv := none, src := "func Bar()" }] }

/-- Claim C8, counterexample: with an unparseable candidate file first
in the directory, the FUNCTION lookup silently skips it and succeeds
from the next file instead of aborting, while the TYPE lookup does
abort with an error. -/
theorem C8_counterexample :
    findFunctionOrMethodInPackage [unparseableFile, fnHolderFile] "" "Bar"
      = .ok "func Bar()" ∧
    findTypeInPackage [unparseableFile, fnHolderFile] "Bar"
      = .error "failed to walk package: parse error" := by
  decide

theorem findTypeInPackage_ok_empty (tn : String) :
    ∀ files : List SrcFile,
      (∀ g ∈ files, isGoFile g.fname = true → isTestGoFile g.fname = false →
        g.parses = true ∧ findTypeInFile g tn = "") →
      findTypeInPackage files tn = .ok ""
  | [], _ => rfl
  | f :: rest, h => by
    have hrec := findTypeInPackage_ok_empty tn rest
      (fun g hg => h g (List.mem_cons_of_mem f hg))
    by_cases hgo : isGoFile f.fname = true
    · by_cases hts : isTestGoFile f.fname = true
      · simp [findTypeInPackage, hgo, hts, hrec]
      · rw [Bool.not_eq_true] at hts
        have hf := h f (List.mem_cons_self f rest) hgo hts
        simp [findTypeInPackage, hgo, hts, hf.1, hf.2, hrec]
    · rw [Bool.not_eq_true] at hgo
      simp [findTypeInPackage, hgo, hrec]

theorem findFunctionOrMethodInPackage_ok_empty (tn fn : String) :
    ∀ files : List SrcFile,
      (∀ g ∈ files, isGoFile g.fname = true → g.parses = true →
        findFunctionOrMethodInFile g tn fn = "") →
      findFunctionOrMethodInPackage files tn fn = .ok ""
  | [], _ => rfl
  | f :: rest, h => by
    have hrec := findFunctionOrMethodInPackage_ok_empty tn fn rest
      (fun g hg => h g (List.mem_cons_of_mem f hg))
    by_cases hgo : isGoFile f.fname = true
    · by_cases hp : f.parses = true
      · have hf := h f (List.mem_cons_self f rest) hgo hp
        simp [findFunctionOrMethodInPackage, hgo, hp, hf, hrec]
      · rw [Bool.not_eq_true] at hp
        simp [findFunctionOrMethodInPackage, hgo, hp, hrec]
    · rw [Bool.not_eq_true] at hgo
      simp [findFunctionOrMethodInPackage, hgo, hrec]

/-- Claim C8, amended: during a TYPE lookup a parse error on a
non-skipped candidate file aborts the search with an error, but during
a FUNCTION lookup unparseable candidate files are silently skipped and
the search continues; in both searches, finding no declaration anywhere
yields an empty result with no error. -/
theorem C8_amended (rest files : List SrcFile) (f : SrcFile) (tn fn : String) :
    (isGoFile f.fname = true → isTestGoFile f.fname = false → f.parses = false →
      findTypeInPackage (f :: rest) tn = .error "failed to walk package: parse error") ∧
    (isGoFile f.fname = true → f.parses = false →
      findFunctionOrMethodInPackage (f :: rest) tn fn =
        findFunctionOrMethodInPackage rest tn fn) ∧
    ((∀ g ∈ files, isGoFile g.fname = true → isTestGoFile g.fname = false →
        g.parses = true ∧ findTypeInFile g tn = "") →
      findTypeInPackage files tn = .ok "") ∧
    ((∀ g ∈ files, isGoFile g.fname = true → g.parses = true →
        findFunctionOrMethodInFile g tn fn = "") →
      findFunctionOrMethodInPackage files tn fn = .ok "") := by
  refine ⟨?_, ?_, findTypeInPackage_ok_empty tn files,
    findFunctionOrMethodInPackage_ok_empty tn fn files⟩
  · intro hg ht hp
    simp [findTypeInPackage, hg, ht, hp]
  · intro hg hp
    simp [findFunctionOrMethodInPackage, hg, hp]

/-- Claim C8, witness: the amended theorem instantiated at an
unparseable file followed by a healthy one. -/
theorem C8_witness :
    findTypeInPackage [unparseableFile] "Bar"
      = .error "failed to walk package: parse error" ∧
    findFunctionOrMethodInPackage [unparseableFile, fnHolderFile] "" "Bar"
      = findFunctionOrMethodInPackage [fnHolderFile] "" "Bar" ∧
    findTypeInPackage [fnHolderFile] "Qux" = .ok "" := by
  have h1 := C8_amended [] [] unparseableFile "Bar" "Bar"
  have h2 := C8_amended [fnHolderFile] [] unparseableFile "" "Bar"
  have h3 := C8_amended [] [fnHolderFile] unparseableFile "Qux" "Bar"
  exact ⟨h1.1 (by decide) (by decide) (by decide),
    h2.2.1 (by decide) (by decide),
    h3.2.2.1 (by decide)⟩

/-- The per-method skip decision of `processFile`'s loop: a method is
skipped iff its canonical test name is in the existing-test index AND
mode is `skip` AND granularity is `function`. -/
def shouldSkip (mode gran : String) (existing : List String)
    (testFuncName : String) : Bool :=
  existing.contains testFuncName && mode == "skip" && gran == "function"

/-- The generated-code accumulator of `processFile`'s method loop:
for each method the canonical name is computed (a naming error aborts
the file), skipped methods contribute nothing, every other method
contributes its generated chunk (the extracted AI response, supplied
here as the opaque collaborator `genChunk`, assumed to succeed)
followed by two newlines. -/
def buildGenerated (mode gran : String) (existing : List String)
    (genChunk : FuncDecl → String) : List FuncDecl → Except String String
  | [] => .ok ""
  | m :: rest => do
    let testFuncName ← generateTestFuncName m
    let tail ← buildGenerated mode gran existing genChunk rest
    if shouldSkip mode gran existing testFuncName then .ok tail
    else .ok (genChunk m ++ "\n\n" ++ tail)

/-- `defaultTestFile` (generate.go): the synthesized minimal header
used when no test file exists. -/
def defaultTestFile (packageName : String) : String :=
  "\n// Code generated by AI.\npackage " ++ packageName ++
    "\n\nimport (\n\t\"testing\"\n\t\"gorm.io/driver/sqlite\"\n\t\"gorm.io/gorm\"\n\t\"gorm.io/gorm/schema\"\n\t\"github.com/volatiletech/null/v9\"\n)\n\n"

/-- `processFile` (generate.go), modelled from after the source file is
parsed: `methods` are the collected targets, `testFile` is
`some (content, names)` when the `_test.go` file exists (its raw
content, and the "Test"-prefixed declaration names indexed by
`parseTestFile`, assumed parseable), `genChunk` the per-method
generated code. `.ok none` means the test file is not written;
`.ok (some text)` means `text` is written to it. -/
def processFile (mode gran pkgName : String) (methods : List FuncDecl)
    (testFile : Option (String × List String)) (genChunk : FuncDecl → String) :
    Except String (Option String) :=
  if methods.isEmpty then .ok none
  else if testFile.isSome ∧ gran = "file" ∧ mode = "skip" then .ok none
  else
    match buildGenerated mode gran ((testFile.map Prod.snd).getD []) genChunk methods with
    | .error e => .error e
    | .ok generatedTestCode =>
      if generatedTestCode = "" then .ok none
      else
        match testFile with
        | some (content, _) => .ok (some (content ++ "\n" ++ generatedTestCode))
        | none => .ok (some (defaultTestFile pkgName ++ generatedTestCode))

theorem buildGenerated_skip_all (names : List String) (genChunk : FuncDecl → String) :
    ∀ methods : List FuncDecl,
      (∀ m ∈ methods, ∃ n, generateTestFuncName m = .ok n ∧ names.contains n = true) →
      buildGenerated "skip" "function" names genChunk methods = .ok ""
  | [], _ => rfl
  | m :: rest, h => by
    obtain ⟨n, hn, hc⟩ := h m (List.mem_cons_self m rest)
    have hrec := buildGenerated_skip_all names genChunk rest
      (fun g hg => h g (List.mem_cons_of_mem m hg))
    have hs : shouldSkip "skip" "function" names n = true := by
      unfold shouldSkip
      rw [hc]
      decide
    simp [buildGenerated, hn, hrec, hs, Bind.bind, Except.bind]

/-- Claim C4: with mode `skip` and granularity `function`, when the
existing test file's index already contains the canonical test name of
every target, `processFile` generates nothing and does not write the
test file (`.ok none`). Since the run leaves the file untouched, a
second run sees the same inputs and likewise produces no change. -/
theorem C4_skip_function_idempotent (pkgName content : String)
    (methods : List FuncDecl) (names : List String) (genChunk : FuncDecl → String)
    (h : ∀ m ∈ methods, ∃ n, generateTestFuncName m = .ok n ∧ names.contains n = true) :
    processFile "skip" "function" pkgName methods (some (content, names)) genChunk
      = .ok none := by
  by_cases hempty : methods.isEmpty
  · simp [processFile, hempty]
  · simp [processFile, hempty, buildGenerated_skip_all names genChunk methods h]

/-- Claim C4, witness: a single method `Greet` on receiver `Greeter`
whose canonical name `TestGreeter_Greet` is already indexed. -/
theorem C4_witness :
    processFile "skip" "function" "pkg" [⟨some [.ident "Greeter"], "Greet"⟩]
      (some ("package pkg", ["TestGreeter_Greet"])) (fun _ => "func chunk")
      = .ok none := by
  apply C4_skip_function_idempotent
  intro m hm
  simp at hm
  subst hm
  exact ⟨"TestGreeter_Greet", by decide, by decide⟩

/-- Spec-side description of the concatenated generated declarations. -/
def concatChunks : List String → String
  | [] => ""
  | s :: rest => s ++ concatChunks rest

theorem buildGenerated_eq_concat (mode gran : String) (existing : List String)
    (genChunk : FuncDecl → String) (nm : FuncDecl → String) :
    ∀ methods : List FuncDecl,
      (∀ m ∈ methods, generateTestFuncName m = .ok (nm m)) →
      buildGenerated mode gran existing genChunk methods =
        .ok (concatChunks (methods.filterMap (fun m =>
          if shouldSkip mode gran existing (nm m) then none
          else some (genChunk m ++ "\n\n"))))
  | [], _ => rfl
  | m :: rest, h => by
    have hm := h m (List.mem_cons_self m rest)
    have hrec := buildGenerated_eq_concat mode gran existing genChunk nm rest
      (fun g hg => h g (List.mem_cons_of_mem m hg))
    by_cases hs : shouldSkip mode gran existing (nm m) = true
    · simp [buildGenerated, hm, hrec, hs, Bind.bind, Except.bind, concatChunks]
    · rw [Bool.not_eq_true] at hs
      simp [buildGenerated, hm, hrec, hs, Bind.bind, Except.bind, concatChunks]

/-- Claim C9: whenever `processFile` writes a result, that result is
exactly the original test file content (plus the `"\n"` concatenation
glue), or the synthesized `defaultTestFile` header when no test file
existed, followed by the generated chunks of precisely the
non-skipped targets in target order — so the original content survives
verbatim as a prefix and no existing declaration is altered or
removed. -/
theorem C9_frame (mode gran pkgName content : String) (methods : List FuncDecl)
    (names : List String) (genChunk : FuncDecl → String) (nm : FuncDecl → String)
    (hnm : ∀ m ∈ methods, generateTestFuncName m = .ok (nm m)) :
    (∀ out, processFile mode gran pkgName methods (some (content, names)) genChunk
        = .ok (some out) →
      out = content ++ "\n" ++ concatChunks (methods.filterMap (fun m =>
        if shouldSkip mode gran names (nm m) then none
        else some (genChunk m ++ "\n\n"))) ∧
      ∃ r, out = (content ++ "\n") ++ r) ∧
    (∀ out, processFile mode gran pkgName methods none genChunk = .ok (some out) →
      out = defaultTestFile pkgName ++ concatChunks (methods.filterMap (fun m =>
        if shouldSkip mode gran [] (nm m) then none
        else some (genChunk m ++ "\n\n")))) := by
  constructor
  · intro out hout
    by_cases hempty : methods.isEmpty
    · simp [processFile, hempty] at hout
    · by_cases hskip : gran = "file" ∧ mode = "skip"
      · simp [processFile, hempty, hskip] at hout
      · have hj := buildGenerated_eq_concat mode gran names genChunk nm methods hnm
        unfold processFile at hout
        rw [if_neg hempty, if_neg (fun hcond => hskip ⟨hcond.2.1, hcond.2.2⟩)] at hout
        simp only [Option.map_some', Option.getD_some] at hout
        rw [hj] at hout
        by_cases hc : concatChunks (methods.filterMap (fun m =>
            if shouldSkip mode gran names (nm m) then none
            else some (genChunk m ++ "\n\n"))) = ""
        · simp [hc] at hout
        · simp [hc] at hout
          exact ⟨hout.symm, _, hout.symm⟩
  · intro out hout
    by_cases hempty : methods.isEmpty
    · simp [processFile, hempty] at hout
    · have hj := buildGenerated_eq_concat mode gran [] genChunk nm methods hnm
      unfold processFile at hout
      rw [if_neg hempty, if_neg (fun hcond => by simp at hcond)] at hout
      simp only [Option.map_none', Option.getD_none] at hout
      rw [hj] at hout
      by_cases hc : concatChunks (methods.filterMap (fun m =>
          if shouldSkip mode gran [] (nm m) then none
          else some (genChunk m ++ "\n\n"))) = ""
      · simp [hc] at hout
      · simp [hc] at hout
        exact hout.symm

/-- Claim C9, witness: one target appended to an existing file. -/
theorem C9_witness :
    processFile "append" "function" "pkg" [⟨none, "Process"⟩]
      (some ("existing", [])) (fun _ => "chunk")
      = .ok (some ("existing" ++ "\n" ++ ("chunk" ++ "\n\n"))) ∧
    "existing" ++ "\n" ++ ("chunk" ++ "\n\n") =
      "existing" ++ "\n" ++ concatChunks ([(⟨none, "Process"⟩ : FuncDecl)].filterMap
        (fun _ => if shouldSkip "append" "function" [] "TestProcess" then none
          else some ("chunk" ++ "\n\n"))) := by
  have hrun : processFile "append" "function" "pkg" [⟨none, "Process"⟩]
      (some ("existing", [])) (fun _ => "chunk")
      = .ok (some ("existing" ++ "\n" ++ ("chunk" ++ "\n\n"))) := by decide
  have h := (C9_frame "append" "function" "pkg" "existing" [⟨none, "Process"⟩] []
    (fun _ => "chunk") (fun _ => "TestProcess") (by decide)).1
    ("existing" ++ "\n" ++ ("chunk" ++ "\n\n")) hrun
  exact ⟨hrun, by simpa using h.1⟩

/-- Result of running a Go function that may return a value, return an
error, or panic at runtime. -/
inductive GoResult (α : Type) : Type where
  | ok (val : α)
  | err (msg : String)
  | panic (msg : String)
deriving DecidableEq, Repr

/-- `strings.Index`: the first offset at which `pat` occurs in `s`
(`none` models -1). The embedding works on character lists; since the
searched patterns are ASCII and Go byte offsets of their matches fall
on rune boundaries, character offsets identify the same positions. -/
def firstIdx : List Char → List Char → Option Nat
  | [], pat => if pat.isPrefixOf ([] : List Char) then some 0 else none
  | c :: t, pat =>
    if pat.isPrefixOf (c :: t) then some 0
    else (firstIdx t pat).map (· + 1)

/-- `strings.LastIndex`: the last offset at which `pat` occurs in `s`
(`none` models -1). -/
def lastIdx (s pat : List Char) : Option Nat :=
  ((List.range (s.length + 1)).filter (fun i => pat.isPrefixOf (s.drop i))).getLast?

/-- The Go slice expression `s[start:stop]` on a string: panics unless
`start ≤ stop ≤ len(s)`. -/
def goSlice (s : List Char) (start stop : Nat) : GoResult (List Char) :=
  if start ≤ stop ∧ stop ≤ s.length then .ok ((s.take stop).drop start)
  else .panic "slice bounds out of range"

/-- `strings.TrimLeft(code, "\n")`. -/
def trimLeadNl (l : List Char) : List Char := l.dropWhile (· = '\n')

/-- `strings.TrimRight(code, "\n")`. -/
def trimTrailNl (l : List Char) : List Char :=
  (l.reverse.dropWhile (· = '\n')).reverse

/-- `extractCode` (generate.go): finds the opening fence — after a
"```go" tag the start is its index plus 5, else after plain "```" the
index plus 3, else an error — then takes the LAST "```" occurrence as
the end; `end` missing or equal to `start` is an error; otherwise the
code is `response[start:end]` (which panics when `end < start`) with
surrounding newlines trimmed. -/
def extractCode (response : List Char) : GoResult (List Char) :=
  let startOpt :=
    match firstIdx response "```go".data with
    | some i => some (i + 5)
    | none =>
      match firstIdx response "```".data with
      | some j => some (j + 3)
      | none => none
  match startOpt with
  | none => .err "code not found: missing starting backticks"
  | some start =>
    match lastIdx response "```".data with
    | none => .err "code not found: missing ending backticks"
    | some e =>
      if e = start then .err "code not found: missing ending backticks"
      else
        match goSlice response start e with
        | .panic m => .panic m
        | .err m => .err m
        | .ok code => .ok (trimTrailNl (trimLeadNl code))

/-- Claim C10: `extractCode` is NOT total. On the five-character input
"```go" the start offset is 5 while the last "```" occurrence is at
offset 0; the guard only catches `end == start`, so the slice
`response[5:0]` panics with a bounds violation. On a well-formed
response the function extracts the fenced code as intended. -/
theorem C10_extractCode_panics :
    extractCode "```go".data = .panic "slice bounds out of range" ∧
    extractCode "```gocode```".data = .ok "code".data := by
  decide

end SmartTestify
